import Mathlib

/-!
Verification development for the Web-Scraping repository.

Shallow embedding of the core code in src/scraper.py and src/ai_utils.py:
the filename sanitizer, the filename construction of scrape_article, the
link extractor, the crawl controller run_scraper, and the sentiment
helpers.  Network, browser and filesystem effects are modelled by oracle
fields of a World structure; Python set iteration order is modelled by an
oracle enumeration function constrained to be a permutation of the set
contents.
-/

/-- ASCII reading of the Python predicate str.isalnum on one character. -/
def pyIsAlnum (c : Char) : Bool := c.isAlpha || c.isDigit

/-- Characters that safe_filename keeps unchanged: alphanumerics and the
characters of the Python literal " -_." (space, hyphen, underscore, dot). -/
def allowedChar (c : Char) : Bool := pyIsAlnum c || (" -_.".toList.contains c)

/-- Per-character replacement performed by safe_filename: keep allowed
characters, replace every other character with an underscore. -/
def sanitizeChar (c : Char) : Char := if allowedChar c then c else '_'

/-- safe_filename from src/scraper.py lines 17-18 (identical copy in
src/utils.py lines 9-10): map every character through the keep-or-replace
rule, then slice the result to the first 100 characters. -/
def safe_filename (name : String) : String :=
  String.mk ((name.toList.map sanitizeChar).take 100)

/-- Filename built by scrape_article at src/scraper.py line 85, with the
timestamp passed in as a parameter (get_timestamp reads the wall clock). -/
def make_filename (title timestamp : String) : String :=
  safe_filename title ++ "_" ++ timestamp ++ ".txt"


/-- Word characters of the Python regex token class w (ASCII reading):
letters, digits and the underscore. -/
def isWordChar (c : Char) : Bool := c.isAlpha || c.isDigit || c = '_'

/-- Splits a character list into the maximal runs of word characters,
accumulating the current run in reverse. Models re.findall with the
word-run pattern used by sentiment_weight in src/ai_utils.py line 51. -/
def splitWordsAux : List Char → List Char → List (List Char)
  | [], cur => if cur.isEmpty then [] else [cur.reverse]
  | c :: cs, cur =>
    if isWordChar c then splitWordsAux cs (c :: cur)
    else if cur.isEmpty then splitWordsAux cs []
    else cur.reverse :: splitWordsAux cs []

/-- The token list of sentiment_weight: lowercase the text, then take the
maximal word-character runs. -/
def findall_words (text : String) : List String :=
  (splitWordsAux (text.toList.map Char.toLower) []).map String.mk

/-- Positive lexicon from src/ai_utils.py line 47. -/
def positive_words : List String :=
  ["good", "great", "excellent", "positive", "happy", "success", "benefit"]

/-- Negative lexicon from src/ai_utils.py line 48. -/
def negative_words : List String :=
  ["bad", "terrible", "sad", "negative", "failure", "harm", "angry"]

/-- sentiment_weight from src/ai_utils.py lines 50-58: plus one per word
in the positive lexicon, minus one per word in the negative lexicon. -/
def sentiment_weight (text : String) : Int :=
  (findall_words text).foldl
    (fun score w =>
      if positive_words.contains w then score + 1
      else if negative_words.contains w then score - 1
      else score) 0

/-- The mood chosen by the if-elif chain of sentiment_details in
src/ai_utils.py lines 62-71. -/
def sentiment_mood (score : Int) : String :=
  if 3 < score then "Strongly Positive"
  else if 0 < score then "Positive"
  else if score = 0 then "Neutral"
  else if -3 < score then "Negative"
  else "Strongly Negative"

/-- sentiment_details from src/ai_utils.py lines 60-72: the mood followed
by the score in parentheses. -/
def sentiment_details (text : String) : String :=
  sentiment_mood (sentiment_weight text) ++ " (score " ++ toString (sentiment_weight text) ++ ")"


/-- Claim C7: for every input string, the output of safe_filename has
length at most 100, every character of the output is alphanumeric, a
space, or one of the characters hyphen, underscore, dot, and the output
is exactly the per-character keep-or-replace image of the input truncated
to 100 characters (so every disallowed input character that survives
truncation appears as an underscore). -/
theorem safe_filename_length_and_alphabet (name : String) :
    (safe_filename name).length ≤ 100 ∧
    (∀ c ∈ (safe_filename name).toList, allowedChar c = true) ∧
    (safe_filename name).toList = (name.toList.map sanitizeChar).take 100 := by
  refine ⟨?_, ?_, rfl⟩
  · show ((name.toList.map sanitizeChar).take 100).length ≤ 100
    exact List.length_take_le 100 (name.toList.map sanitizeChar)
  · intro c hc
    have hmem : c ∈ name.toList.map sanitizeChar := List.mem_of_mem_take hc
    obtain ⟨a, _, rfl⟩ := List.mem_map.mp hmem
    by_cases h : allowedChar a = true
    · simp [sanitizeChar, h]
    · have : sanitizeChar a = '_' := by simp [sanitizeChar, h]
      rw [this]
      decide

/-- Claim C2 counterexample: safe_filename replaces the comma and the
exclamation mark of "Hello, World! <Test>" with underscores (neither is
alphanumeric nor in the literal " -_."), so the generated base is
"Hello_ World_ _Test_" and not "Hello, World! _Test_" as claimed. -/
theorem safe_filename_comma_replaced :
    safe_filename "Hello, World! <Test>" = "Hello_ World_ _Test_" ∧
    make_filename "Hello, World! <Test>" "2024-01-02_03-04-05" =
      "Hello_ World_ _Test__2024-01-02_03-04-05.txt" ∧
    safe_filename "Hello, World! <Test>" ≠ "Hello, World! _Test_" :=
  ⟨by decide, by decide, by decide⟩

/-- Claim C2 (amended): for a page whose title is "Hello, World! <Test>",
the generated filename base is exactly "Hello_ World_ _Test_" (the comma
and the exclamation mark are replaced with underscores, as are the angle
brackets; letters and spaces are kept), followed by an underscore, the
timestamp, and the ".txt" extension. -/
theorem filename_for_hello_world_title (timestamp : String) :
    make_filename "Hello, World! <Test>" timestamp =
      "Hello_ World_ _Test_" ++ "_" ++ timestamp ++ ".txt" := by
  have h : safe_filename "Hello, World! <Test>" = "Hello_ World_ _Test_" := by decide
  simp [make_filename, h]

/-- Claim C4 counterexample: for a title of one hundred letters and the
nineteen-character timestamp format, the filename before the ".txt"
extension has length 120, which exceeds the claimed bound of 100. -/
theorem filename_stem_can_exceed_100 :
    (safe_filename (String.mk (List.replicate 100 'a')) ++ "_" ++ "2024-01-02_03-04-05").length = 120 ∧
    make_filename (String.mk (List.replicate 100 'a')) "2024-01-02_03-04-05" =
      (safe_filename (String.mk (List.replicate 100 'a')) ++ "_" ++ "2024-01-02_03-04-05") ++ ".txt" ∧
    ¬ (120 ≤ 100) :=
  ⟨by decide, rfl, by decide⟩

/-- Claim C4 (amended): the generated filename is the sanitized title
truncated to 100 characters, followed by an underscore, the timestamp,
and the ".txt" extension; the sanitized-title portion is at most 100
characters, so the whole filename is at most 105 characters plus the
timestamp length (the bound of 100 holds for the title portion only, not
for the full pre-extension stem). -/
theorem filename_shape (title timestamp : String) :
    make_filename title timestamp = safe_filename title ++ "_" ++ timestamp ++ ".txt" ∧
    (safe_filename title).length ≤ 100 ∧
    (make_filename title timestamp).length ≤ 100 + 1 + timestamp.length + 4 := by
  refine ⟨rfl, ?_, ?_⟩
  · show ((title.toList.map sanitizeChar).take 100).length ≤ 100
    exact List.length_take_le 100 (title.toList.map sanitizeChar)
  · have h : (safe_filename title).length ≤ 100 := by
      show ((title.toList.map sanitizeChar).take 100).length ≤ 100
      exact List.length_take_le 100 (title.toList.map sanitizeChar)
    have h1 : ("_" : String).length = 1 := rfl
    have h4 : (".txt" : String).length = 4 := rfl
    have hlen : (make_filename title timestamp).length =
        (safe_filename title).length + 1 + timestamp.length + 4 := by
      simp [make_filename, String.length_append, h1, h4]
    omega

/-- Claim C9: the input "This is a great and excellent success" has
sentiment score exactly 3 and is classified Positive; in general every
text whose score is exactly 3 is classified Positive, not Strongly
Positive, because the Strongly Positive branch requires a score strictly
greater than 3. -/
theorem sentiment_score_three_is_positive :
    sentiment_weight "This is a great and excellent success" = 3 ∧
    sentiment_details "This is a great and excellent success" = "Positive (score 3)" ∧
    ∀ text, sentiment_weight text = 3 → sentiment_details text = "Positive (score 3)" := by
  refine ⟨by decide, by decide, ?_⟩
  intro t ht
  unfold sentiment_details
  rw [ht]
  decide

/-- Witness for claim C9 at a concrete input of score exactly 3. -/
theorem sentiment_score_three_is_positive_witness :
    sentiment_details "good and great success story" = "Positive (score 3)" :=
  sentiment_score_three_is_positive.2.2 "good and great success story" (by decide)

/-- Claim C10: the classification boundaries are asymmetric: every text
with score exactly 3 is classified Positive, while every text with score
exactly minus 3 is classified Strongly Negative, because the negative
branch requires a score strictly greater than minus 3 to report Negative. -/
theorem sentiment_boundaries_asymmetric :
    (∀ text, sentiment_weight text = 3 → sentiment_details text = "Positive (score 3)") ∧
    (∀ text, sentiment_weight text = -3 →
      sentiment_details text = "Strongly Negative (score -3)") := by
  constructor
  · intro t ht
    unfold sentiment_details
    rw [ht]
    decide
  · intro t ht
    unfold sentiment_details
    rw [ht]
    decide

/-- Witness for claim C10 at concrete inputs of scores 3 and minus 3. -/
theorem sentiment_boundaries_asymmetric_witness :
    sentiment_details "great excellent benefit" = "Positive (score 3)" ∧
    sentiment_details "bad terrible sad" = "Strongly Negative (score -3)" :=
  ⟨sentiment_boundaries_asymmetric.1 "great excellent benefit" (by decide),
   sentiment_boundaries_asymmetric.2 "bad terrible sad" (by decide)⟩

/-- The data scrape_article and extract_links read from a rendered page:
the title text and the href attributes of the anchor elements in document
order. -/
structure Page where
  title : String
  hrefs : List String

/-- Oracle model of the outside world for one crawl invocation.  fetch1
is the rendering fetch issued by scrape_article, fetch2 the independent
second fetch issued by run_scraper for link discovery (the code renders
each URL twice); none models a render failure, which the Python code
catches and turns into None.  resolve models urljoin.  setList models the
iteration order of the Python expression list(links) on a set, given the
set contents in insertion order; a run of the real program corresponds to
a setList that permutes its argument.  timestamp models get_timestamp. -/
structure World where
  fetch1 : String → Option Page
  fetch2 : String → Option Page
  resolve : String → String → String
  setList : List String → List String
  timestamp : String

/-- scrape_article from src/scraper.py lines 72-125, abstracted to its
observable effect: on a render failure it returns none and writes no
file; on success it writes one file and returns its name, built at line
85 from the sanitized title and the timestamp. -/
def scrape_article (w : World) (url : String) : Option String :=
  match w.fetch1 url with
  | none => none
  | some pg => some (make_filename pg.title w.timestamp)

/-- The Python test url.startswith with the literal "http" used by
extract_links at src/scraper.py line 65. -/
def startsWithHttp (u : String) : Bool :=
  match u.toList with
  | 'h' :: 't' :: 't' :: 'p' :: _ => true
  | _ => false

/-- Adding one element to a Python set represented as its insertion-order
duplicate-free list. -/
def setInsert (s : List String) (x : String) : List String :=
  if x ∈ s then s else s ++ [x]

/-- extract_links from src/scraper.py lines 61-67: resolve every anchor
href against the base URL, keep those that start with "http", and collect
them into a set.  The returned list is the set contents in insertion
order (document order of first occurrence); iteration order of the set is
applied separately by World.setList. -/
def extract_links (resolve : String → String → String) (base : String)
    (hrefs : List String) : List String :=
  ((hrefs.map (resolve base)).filter startsWithHttp).foldl setInsert []

/-- The list appended to next_links for one URL at src/scraper.py lines
154-160: empty when the link-discovery fetch fails, otherwise the
enumeration list(links) of the extracted link set. -/
def linksOf (w : World) (url : String) : List String :=
  match w.fetch2 url with
  | some pg => w.setList (extract_links w.resolve url pg.hrefs)
  | none => []

/-- A World is a faithful run of the program when its set enumeration
returns a permutation of the set contents, as every iteration of a
Python set does. -/
def validSetList (w : World) : Prop :=
  ∀ s : List String, (w.setList s).Perm s

/-- The counter update at src/scraper.py lines 150-151: total_files is
incremented exactly when scrape_article returned a saved file. -/
def bump (w : World) (url : String) (tot : Nat) : Nat :=
  if (scrape_article w url).isSome then tot + 1 else tot

/-- Result of the per-URL loop over one frontier: whether the safety
limit fired an early return, plus the visited set, the counter, the
next-level frontier under construction, and the trace of URLs processed
(rendered) by this call in order. -/
structure LevelRes where
  early : Bool
  visited : List String
  total : Nat
  next_links : List String
  scraped : List String

/-- The per-URL loop of run_scraper, src/scraper.py lines 141-166: skip
visited URLs; otherwise mark visited, scrape (counting a success), issue
the second fetch; when it fails, continue with the next URL (skipping the
safety check); when it succeeds, extend next_links with the enumerated
link set and return early if total_files has reached 50. -/
def runLevel (w : World) : List String → List String → Nat → List String → LevelRes
  | [], vis, tot, nxt => ⟨false, vis, tot, nxt, []⟩
  | url :: rest, vis, tot, nxt =>
    if url ∈ vis then
      runLevel w rest vis tot nxt
    else if (w.fetch2 url).isSome then
      if 50 ≤ bump w url tot then
        ⟨true, vis ++ [url], bump w url tot, nxt ++ linksOf w url, [url]⟩
      else
        let r := runLevel w rest (vis ++ [url]) (bump w url tot) (nxt ++ linksOf w url)
        ⟨r.early, r.visited, r.total, r.next_links, url :: r.scraped⟩
    else
      let r := runLevel w rest (vis ++ [url]) (bump w url tot) nxt
      ⟨r.early, r.visited, r.total, r.next_links, url :: r.scraped⟩

/-- Result of a whole crawl: the returned counter, the concatenated trace
of processed URLs, and the number of level iterations entered. -/
structure CrawlRes where
  total : Nat
  scraped : List String
  levels : Nat

/-- The level loop of run_scraper, src/scraper.py lines 135-170: iterate
the per-URL loop depth times, replacing the frontier with next_links
after each full level, and stop at once when the per-URL loop returned
early on the safety limit. -/
def runCrawl (w : World) : Nat → List String → List String → Nat → CrawlRes
  | 0, _, _, tot => ⟨tot, [], 0⟩
  | d + 1, frontier, vis, tot =>
    let r := runLevel w frontier vis tot []
    if r.early then ⟨r.total, r.scraped, 1⟩
    else
      let c := runCrawl w d r.next_links r.visited r.total
      ⟨c.total, r.scraped ++ c.scraped, c.levels + 1⟩

/-- run_scraper from src/scraper.py lines 130-170: start from the start
URL with an empty visited set and a zero counter and return total_files. -/
def run_scraper (w : World) (start_url : String) (depth : Nat) : Nat :=
  (runCrawl w depth [start_url] [] 0).total

/-- Concatenation of the per-URL link contributions over a trace of
processed URLs, in trace order. -/
def concatLinks (w : World) (urls : List String) : List String :=
  urls.foldr (fun u acc => linksOf w u ++ acc) []

theorem linksOf_eq_nil (w : World) (url : String) (h : (w.fetch2 url).isSome = false) :
    linksOf w url = [] := by
  unfold linksOf
  split
  · next pg heq => rw [heq] at h; simp at h
  · rfl

theorem runLevel_spec (w : World) (urls : List String) :
    ∀ (vis : List String) (tot : Nat) (nxt : List String),
      (runLevel w urls vis tot nxt).visited = vis ++ (runLevel w urls vis tot nxt).scraped ∧
      (∀ u ∈ (runLevel w urls vis tot nxt).scraped, u ∉ vis) ∧
      (runLevel w urls vis tot nxt).scraped.Nodup ∧
      (runLevel w urls vis tot nxt).total =
        tot + ((runLevel w urls vis tot nxt).scraped.filter
          (fun u => (scrape_article w u).isSome)).length ∧
      (runLevel w urls vis tot nxt).next_links =
        nxt ++ concatLinks w (runLevel w urls vis tot nxt).scraped := by
  induction urls with
  | nil =>
    intro vis tot nxt
    simp [runLevel, concatLinks]
  | cons url rest ih =>
    intro vis tot nxt
    by_cases hv : url ∈ vis
    · simp only [runLevel, if_pos hv]
      exact ih vis tot nxt
    · by_cases h2 : (w.fetch2 url).isSome
      · by_cases hlim : 50 ≤ bump w url tot
        · simp only [runLevel, if_neg hv, if_pos h2, if_pos hlim]
          refine ⟨trivial, ?_, ?_, ?_, ?_⟩
          · intro u hu
            simp only [List.mem_singleton] at hu
            subst hu
            exact hv
          · simp
          · by_cases hs : (scrape_article w url).isSome <;> simp [bump, hs]
          · simp [concatLinks]
        · simp only [runLevel, if_neg hv, if_pos h2, if_neg hlim]
          obtain ⟨g1, g2, g3, g4, g5⟩ := ih (vis ++ [url]) (bump w url tot) (nxt ++ linksOf w url)
          refine ⟨?_, ?_, ?_, ?_, ?_⟩
          · show (runLevel w rest (vis ++ [url]) (bump w url tot) (nxt ++ linksOf w url)).visited =
              vis ++ url :: (runLevel w rest (vis ++ [url]) (bump w url tot) (nxt ++ linksOf w url)).scraped
            rw [g1]
            simp
          · intro u hu
            simp only [List.mem_cons] at hu
            rcases hu with rfl | hu
            · exact hv
            · intro hvis
              exact g2 u hu (List.mem_append_left _ hvis)
          · show ((url :: (runLevel w rest (vis ++ [url]) (bump w url tot) (nxt ++ linksOf w url)).scraped)).Nodup
            refine List.nodup_cons.mpr ⟨?_, g3⟩
            intro hu
            exact g2 url hu (by simp)
          · show (runLevel w rest (vis ++ [url]) (bump w url tot) (nxt ++ linksOf w url)).total =
              tot + ((url :: (runLevel w rest (vis ++ [url]) (bump w url tot) (nxt ++ linksOf w url)).scraped).filter
                (fun u => (scrape_article w u).isSome)).length
            rw [g4]
            by_cases hs : (scrape_article w url).isSome <;>
              simp [bump, hs, List.filter_cons] <;> omega
          · show (runLevel w rest (vis ++ [url]) (bump w url tot) (nxt ++ linksOf w url)).next_links =
              nxt ++ concatLinks w
                ((url :: (runLevel w rest (vis ++ [url]) (bump w url tot) (nxt ++ linksOf w url)).scraped))
            rw [g5]
            simp [concatLinks]
      · have h2f : (w.fetch2 url).isSome = false := by simpa using h2
        simp only [runLevel, if_neg hv, if_neg h2]
        obtain ⟨g1, g2, g3, g4, g5⟩ := ih (vis ++ [url]) (bump w url tot) nxt
        refine ⟨?_, ?_, ?_, ?_, ?_⟩
        · show (runLevel w rest (vis ++ [url]) (bump w url tot) nxt).visited =
            vis ++ url :: (runLevel w rest (vis ++ [url]) (bump w url tot) nxt).scraped
          rw [g1]
          simp
        · intro u hu
          simp only [List.mem_cons] at hu
          rcases hu with rfl | hu
          · exact hv
          · intro hvis
            exact g2 u hu (List.mem_append_left _ hvis)
        · show ((url :: (runLevel w rest (vis ++ [url]) (bump w url tot) nxt).scraped)).Nodup
          refine List.nodup_cons.mpr ⟨?_, g3⟩
          intro hu
          exact g2 url hu (by simp)
        · show (runLevel w rest (vis ++ [url]) (bump w url tot) nxt).total =
            tot + ((url :: (runLevel w rest (vis ++ [url]) (bump w url tot) nxt).scraped).filter
              (fun u => (scrape_article w u).isSome)).length
          rw [g4]
          by_cases hs : (scrape_article w url).isSome <;>
            simp [bump, hs, List.filter_cons] <;> omega
        · show (runLevel w rest (vis ++ [url]) (bump w url tot) nxt).next_links =
            nxt ++ concatLinks w
              ((url :: (runLevel w rest (vis ++ [url]) (bump w url tot) nxt).scraped))
          rw [g5]
          simp [concatLinks, linksOf_eq_nil w url h2f]

theorem runLevel_covers (w : World) (urls : List String) :
    ∀ (vis : List String) (tot : Nat) (nxt : List String),
      (runLevel w urls vis tot nxt).early = false →
      ∀ v ∈ urls, v ∈ vis ∨ v ∈ (runLevel w urls vis tot nxt).scraped := by
  induction urls with
  | nil => simp
  | cons url rest ih =>
    intro vis tot nxt he v hv
    rcases List.mem_cons.mp hv with rfl | hvrest
    · by_cases hmem : v ∈ vis
      · exact Or.inl hmem
      · right
        by_cases h2 : (w.fetch2 v).isSome
        · by_cases hlim : 50 ≤ bump w v tot
          · simp only [runLevel, if_neg hmem, if_pos h2, if_pos hlim] at he
            exact absurd he (by decide)
          · simp only [runLevel, if_neg hmem, if_pos h2, if_neg hlim]
            exact List.mem_cons_self v _
        · simp only [runLevel, if_neg hmem, if_neg h2]
          exact List.mem_cons_self v _
    · by_cases hmem : url ∈ vis
      · simp only [runLevel, if_pos hmem] at he ⊢
        exact ih vis tot nxt he v hvrest
      · by_cases h2 : (w.fetch2 url).isSome
        · by_cases hlim : 50 ≤ bump w url tot
          · simp only [runLevel, if_neg hmem, if_pos h2, if_pos hlim] at he
            exact absurd he (by decide)
          · simp only [runLevel, if_neg hmem, if_pos h2, if_neg hlim] at he ⊢
            rcases ih (vis ++ [url]) (bump w url tot) (nxt ++ linksOf w url) he v hvrest with h | h
            · rcases List.mem_append.mp h with h | h
              · exact Or.inl h
              · right
                simp only [List.mem_singleton] at h
                subst h
                exact List.mem_cons_self v _
            · exact Or.inr (List.mem_cons_of_mem url h)
        · simp only [runLevel, if_neg hmem, if_neg h2] at he ⊢
          rcases ih (vis ++ [url]) (bump w url tot) nxt he v hvrest with h | h
          · rcases List.mem_append.mp h with h | h
            · exact Or.inl h
            · right
              simp only [List.mem_singleton] at h
              subst h
              exact List.mem_cons_self v _
          · exact Or.inr (List.mem_cons_of_mem url h)

theorem runCrawl_spec (w : World) (d : Nat) :
    ∀ (frontier vis : List String) (tot : Nat),
      (∀ u ∈ (runCrawl w d frontier vis tot).scraped, u ∉ vis) ∧
      (runCrawl w d frontier vis tot).scraped.Nodup ∧
      (runCrawl w d frontier vis tot).total =
        tot + ((runCrawl w d frontier vis tot).scraped.filter
          (fun u => (scrape_article w u).isSome)).length := by
  induction d with
  | zero =>
    intro frontier vis tot
    simp [runCrawl]
  | succ d ih =>
    intro frontier vis tot
    obtain ⟨h1, h2, h3, h4, h5⟩ := runLevel_spec w frontier vis tot []
    by_cases he : (runLevel w frontier vis tot []).early
    · simp only [runCrawl, if_pos he]
      exact ⟨h2, h3, h4⟩
    · simp only [runCrawl, if_neg he]
      obtain ⟨g1, g2, g3⟩ := ih (runLevel w frontier vis tot []).next_links
        (runLevel w frontier vis tot []).visited (runLevel w frontier vis tot []).total
      refine ⟨?_, ?_, ?_⟩
      · intro u hu
        rcases List.mem_append.mp hu with h | h
        · exact h2 u h
        · intro hvis
          exact g1 u h (by rw [h1]; exact List.mem_append_left _ hvis)
      · refine List.Nodup.append h3 g2 ?_
        intro a ha hb
        exact g1 a hb (by rw [h1]; exact List.mem_append_right _ ha)
      · show (runCrawl w d (runLevel w frontier vis tot []).next_links
            (runLevel w frontier vis tot []).visited (runLevel w frontier vis tot []).total).total =
          tot + ((((runLevel w frontier vis tot []).scraped ++
            (runCrawl w d (runLevel w frontier vis tot []).next_links
              (runLevel w frontier vis tot []).visited
              (runLevel w frontier vis tot []).total).scraped).filter
            (fun u => (scrape_article w u).isSome)).length)
        rw [g3, h4, List.filter_append, List.length_append]
        omega

theorem runCrawl_levels_le (w : World) (d : Nat) :
    ∀ (frontier vis : List String) (tot : Nat),
      (runCrawl w d frontier vis tot).levels ≤ d := by
  induction d with
  | zero =>
    intro frontier vis tot
    simp [runCrawl]
  | succ d ih =>
    intro frontier vis tot
    by_cases he : (runLevel w frontier vis tot []).early
    · simp only [runCrawl, if_pos he]
      omega
    · simp only [runCrawl, if_neg he]
      have := ih (runLevel w frontier vis tot []).next_links
        (runLevel w frontier vis tot []).visited (runLevel w frontier vis tot []).total
      show (runCrawl w d (runLevel w frontier vis tot []).next_links
          (runLevel w frontier vis tot []).visited
          (runLevel w frontier vis tot []).total).levels + 1 ≤ d + 1
      omega

/-- Claim C5: within one crawl invocation no URL is processed (rendered
for extraction) twice: the trace of URLs handed to scrape_article is
duplicate-free, and the returned counter equals the number of distinct
traced URLs whose scrape succeeded, so no URL is counted or written
twice; duplicate occurrences in the same or a later frontier are skipped. -/
theorem no_url_processed_twice (w : World) (start_url : String) (d : Nat) :
    (runCrawl w d [start_url] [] 0).scraped.Nodup ∧
    (runCrawl w d [start_url] [] 0).total =
      ((runCrawl w d [start_url] [] 0).scraped.filter
        (fun u => (scrape_article w u).isSome)).length := by
  obtain ⟨h1, h2, h3⟩ := runCrawl_spec w d [start_url] [] 0
  exact ⟨h2, by simpa using h3⟩

/-- Claim C6: a crawl of depth d enters at most d level iterations, for
every frontier evolution, and the crawl is a total function of its
inputs (it always terminates and returns a value). -/
theorem crawl_depth_bound (w : World) (start_url : String) (d : Nat) :
    (runCrawl w d [start_url] [] 0).levels ≤ d ∧
    ∃ n : Nat, run_scraper w start_url d = n :=
  ⟨runCrawl_levels_le w d [start_url] [] 0, ⟨run_scraper w start_url d, rfl⟩⟩

/-- Claim C3 (amended): the next frontier built by one level is the
concatenation, in the order the URLs were processed, of the per-URL link
groups, where each group is the set-iteration enumeration of that URL
link set — a permutation of the links in discovery order, not
necessarily the discovery order itself. -/
theorem frontier_is_ordered_concatenation_of_permuted_groups (w : World)
    (h : validSetList w) (urls vis : List String) (tot : Nat) :
    (runLevel w urls vis tot []).next_links =
      concatLinks w (runLevel w urls vis tot []).scraped ∧
    ∀ url pg, w.fetch2 url = some pg →
      (linksOf w url).Perm (extract_links w.resolve url pg.hrefs) := by
  constructor
  · have h5 := (runLevel_spec w urls vis tot []).2.2.2.2
    simpa using h5
  · intro url pg hf
    unfold linksOf
    rw [hf]
    exact h (extract_links w.resolve url pg.hrefs)

/-- A page at the start URL carrying two links in document order. -/
def pageAB : Page := ⟨"t", ["httpA", "httpB"]⟩

/-- World whose set enumeration happens to iterate in reverse insertion
order, which a Python set is free to do. -/
def wRev : World :=
  { fetch1 := fun _ => none
    fetch2 := fun u => if u = "s" then some pageAB else none
    resolve := fun _ href => href
    setList := fun s => s.reverse
    timestamp := "ts" }

/-- Claim C3 counterexample: with a legitimate set enumeration (a
permutation, here reversal) the frontier after processing the start URL
is the reversed list, not the per-URL discovery order; the code iterates
a Python set, whose order is not the insertion order. -/
theorem frontier_not_in_discovery_order :
    validSetList wRev ∧
    extract_links wRev.resolve "s" pageAB.hrefs = ["httpA", "httpB"] ∧
    (runLevel wRev ["s"] [] 0 []).next_links = ["httpB", "httpA"] ∧
    (runLevel wRev ["s"] [] 0 []).next_links ≠ ["httpA", "httpB"] :=
  ⟨fun s => List.reverse_perm s, by decide, by decide, by decide⟩

/-- Witness for claim C3 at the concrete reversing world. -/
theorem frontier_is_ordered_concatenation_witness :
    (runLevel wRev ["s"] [] 0 []).next_links =
      concatLinks wRev (runLevel wRev ["s"] [] 0 []).scraped :=
  (frontier_is_ordered_concatenation_of_permuted_groups wRev
    (fun s => List.reverse_perm s) ["s"] [] 0).1

/-- Claim C8: a render failure for a URL is absorbed at the renderer
boundary: scrape_article returns none (no file is written), the URL never
appears among the counted successes, and when the level loop did not stop
on the safety limit every URL of the frontier is still handled (already
visited or processed this level) — the crawl continues past the failure. -/
theorem render_failure_skips_url_only (w : World) (u : String)
    (h : w.fetch1 u = none) :
    scrape_article w u = none ∧
    (∀ urls vis tot nxt,
      u ∉ (runLevel w urls vis tot nxt).scraped.filter
        (fun x => (scrape_article w x).isSome)) ∧
    (∀ urls vis tot nxt, (runLevel w urls vis tot nxt).early = false →
      ∀ v ∈ urls, v ∈ vis ∨ v ∈ (runLevel w urls vis tot nxt).scraped) := by
  have hs : scrape_article w u = none := by
    unfold scrape_article
    rw [h]
  refine ⟨hs, ?_, ?_⟩
  · intro urls vis tot nxt hmem
    have hp := List.of_mem_filter hmem
    rw [hs] at hp
    simp at hp
  · intro urls vis tot nxt he
    exact runLevel_covers w urls vis tot nxt he

/-- World in which every render fails. -/
def wFail : World :=
  { fetch1 := fun _ => none
    fetch2 := fun _ => none
    resolve := fun _ href => href
    setList := fun s => s
    timestamp := "ts" }

/-- Witness for claim C8: in a world where rendering the first URL fails,
no file is produced for it and the second URL of the level is still
processed. -/
theorem render_failure_skips_url_only_witness :
    scrape_article wFail "u" = none ∧
    ("v" ∈ ([] : List String) ∨ "v" ∈ (runLevel wFail ["u", "v"] [] 0 []).scraped) :=
  ⟨(render_failure_skips_url_only wFail "u" rfl).1,
   (render_failure_skips_url_only wFail "u" rfl).2.2 ["u", "v"] [] 0 [] (by decide) "v" (by decide)⟩

/-- Fifty distinct absolute links discovered on the start page. -/
def demoLinks : List String := (List.range 50).map (fun i => "http" ++ toString i)

/-- World exercising the safety-limit slip: every article render
succeeds, the link-discovery render succeeds only for the start URL, and
set iteration is the identity enumeration. -/
def wLimit : World :=
  { fetch1 := fun _ => some ⟨"t", []⟩
    fetch2 := fun u => if u = "s" then some ⟨"t", demoLinks⟩ else none
    resolve := fun _ href => href
    setList := fun s => s
    timestamp := "ts" }

set_option maxRecDepth 4000 in
/-- Claim C1 evaluation at the failing input: with depth 2, a start page
carrying fifty links, every article scrape succeeding and every level-two
link-discovery fetch failing, run_scraper returns 51, exceeding the
claimed ceiling of 50 and never cutting the level short: the continue
taken when the link-discovery fetch fails skips the safety check at
src/scraper.py line 163, so the counter passes 50 unnoticed. -/
theorem limit_check_bypassed :
    validSetList wLimit ∧
    run_scraper wLimit "s" 2 = 51 ∧
    ¬ (run_scraper wLimit "s" 2 ≤ 50) ∧
    (runCrawl wLimit 2 ["s"] [] 0).levels = 2 := by
  have h : run_scraper wLimit "s" 2 = 51 := by decide
  refine ⟨fun s => List.Perm.refl s, h, ?_, by decide⟩
  rw [h]
  decide
